import Mathlib

/-!
Shallow embedding of the status-translation layer of the goecharger
repository.

The core under verification is the internal status mapper
(class GoeCharger._StatusMapper) which appears in two package variants:

* src/goecharger_api_lite/goecharger_api_lite.py  (namespace Lite below)
* src/goecharger/goecharger.py                    (namespace Legacy below)

Raw JSON-like values are modelled by the inductive type Val; Python
numbers (int and float) are modelled as rationals, which is exact for all
the arithmetic the mapper performs (sums and one division for the
temperature mean).  Python dicts are modelled as association lists in
insertion order; insertion with an existing key overwrites the value in
place, exactly as a Python dict does.  Python exceptions raised by the
mapper (KeyError from an enum-table lookup, IndexError from indexing a
too-short energy list, TypeError from len/sum/indexing on a non-sequence)
are modelled by the error type MapError through Except.
-/

/-- A JSON-like runtime value as handled by the status mapper. -/
inductive Val where
  | num  (q : ℚ)
  | str  (s : String)
  | null
  | list (vs : List Val)
  | dict (entries : List (String × Val))

/-- Errors the Python mapper can raise while translating one element:
KeyError from an enum dictionary lookup, IndexError from indexing the
energy list, TypeError from applying len/sum/indexing to a wrong type. -/
inductive MapError where
  | keyError (table : String) (value : Val)
  | indexError (idx : Nat)
  | typeError (msg : String)

/-- An association list modelling a Python dict in insertion order. -/
abbrev Obj := List (String × Val)

namespace Lite

/-- Table _StatusMapper.__mappings_car. -/
def mappings_car : Int → Option Val := fun n =>
  match n with
  | 0 => some (.str "Unknown/Error")
  | 1 => some (.str "Idle")
  | 2 => some (.str "Charging")
  | 3 => some (.str "WaitCar")
  | 4 => some (.str "Complete")
  | 5 => some (.str "Error")
  | _ => none

/-- Table _StatusMapper.__mappings_err.  Code 0 maps to Python None. -/
def mappings_err : Int → Option Val := fun n =>
  match n with
  | 0 => some .null
  | 1 => some (.str "FiAc")
  | 2 => some (.str "FiDc")
  | 3 => some (.str "Phase")
  | 4 => some (.str "Overvolt")
  | 5 => some (.str "Overamp")
  | 6 => some (.str "Diode")
  | 7 => some (.str "Ppinvalid")
  | 8 => some (.str "GndInvalid")
  | 9 => some (.str "ContactorStuck")
  | 10 => some (.str "ContactorMiss")
  | 11 => some (.str "FiUnknown")
  | 12 => some (.str "Unknown")
  | 13 => some (.str "Overtemp")
  | 14 => some (.str "NoComm")
  | 15 => some (.str "StatusLockStuckOpen")
  | 16 => some (.str "StatusLockStuckLocked")
  | 20 => some (.str "Reserved20")
  | 21 => some (.str "Reserved21")
  | 22 => some (.str "Reserved22")
  | 23 => some (.str "Reserved23")
  | 24 => some (.str "Reserved24")
  | _ => none

/-- Table _StatusMapper.__mappings_frc. -/
def mappings_frc : Int → Option Val := fun n =>
  match n with
  | 0 => some (.str "neutral")
  | 1 => some (.str "off")
  | 2 => some (.str "on")
  | _ => none

/-- Table _StatusMapper.__mappings_psm. -/
def mappings_psm : Int → Option Val := fun n =>
  match n with
  | 0 => some (.str "auto")
  | 1 => some (.str "one")
  | 2 => some (.str "three")
  | _ => none

/-- Table _StatusMapper.__mappings_ust (api_lite variant only). -/
def mappings_ust : Int → Option Val := fun n =>
  match n with
  | 0 => some (.str "unlock car first")
  | 1 => some (.str "automatic")
  | 2 => some (.str "locked")
  | _ => none

/-- Table _StatusMapper.__mappings_var. -/
def mappings_var : Int → Option Val := fun n =>
  match n with
  | 11 => some (.str "11KW/16A")
  | 22 => some (.str "22KW/32A")
  | _ => none

/-- A Python dict lookup table[value] where the table keys are the ints in
the domain of table.  A numeric value hits the table when it equals an
integer key (Python float 2.0 indexes the same dict slot as int 2); any
other hashable value (string, None, or a non-integral number) raises
KeyError; an unhashable value (list, dict) raises TypeError. -/
def lookupEnum (tableName : String) (table : Int → Option Val) (v : Val) :
    Except MapError Val :=
  match v with
  | .num q =>
      if q.den = 1 then
        match table q.num with
        | some l => .ok l
        | none => .error (.keyError tableName (.num q))
      else .error (.keyError tableName (.num q))
  | .str s => .error (.keyError tableName (.str s))
  | .null => .error (.keyError tableName .null)
  | .list _ => .error (.typeError "unhashable type: list")
  | .dict _ => .error (.typeError "unhashable type: dict")

/-- Python sum(value) over a list, left to right; a non-numeric element
raises TypeError. -/
def sumNums : List Val → Except MapError ℚ
  | [] => .ok 0
  | .num q :: rest =>
      match sumNums rest with
      | .ok s => .ok (q + s)
      | .error e => .error e
  | _ :: _ => .error (.typeError "unsupported operand type for +")

/-- The nested energy structure built by the nrg branch of
_StatusMapper.__map_element from values value[0] .. value[14]. -/
def nrgStruct (vs : List Val) : Val :=
  .dict [
    ("voltage", .dict [
      ("L1", vs.getD 0 .null),
      ("L2", vs.getD 1 .null),
      ("L3", vs.getD 2 .null),
      ("N", vs.getD 3 .null)]),
    ("current", .dict [
      ("L1", vs.getD 4 .null),
      ("L2", vs.getD 5 .null),
      ("L3", vs.getD 6 .null)]),
    ("power", .dict [
      ("L1", vs.getD 7 .null),
      ("L2", vs.getD 8 .null),
      ("L3", vs.getD 9 .null),
      ("N", vs.getD 10 .null),
      ("total", vs.getD 11 .null)]),
    ("power_factor", .dict [
      ("L1", vs.getD 12 .null),
      ("L2", vs.getD 13 .null),
      ("L3", vs.getD 14 .null)])]

/-- _StatusMapper.__map_element of goecharger_api_lite: the match on the
field code, written as the sequential comparison chain the Python
match/case on string literals performs.  Branches that index or reduce the
value can fail, modelled in Except.  The nrg branch indexes value[0] ..
value[14]; on a list shorter than 15 the first failing index is the
list's length (IndexError).  The tma branch computes
sum(value)/len(value) when the list is nonempty, else None. -/
def mapElement (element : String × Val) : Except MapError (String × Val) :=
  match element with
  | (name, value) =>
    if name = "acu" then .ok ("ampere", value)
    else if name = "ama" then .ok ("ampere_device_maximum", value)
    else if name = "amp" then .ok ("ampere_allowed", value)
    else if name = "car" then
      match lookupEnum "car" mappings_car value with
      | .ok l => .ok ("car_state", l)
      | .error e => .error e
    else if name = "dwo" then .ok ("charge_limit", value)
    else if name = "err" then
      match lookupEnum "err" mappings_err value with
      | .ok l => .ok ("error", l)
      | .error e => .error e
    else if name = "frc" then
      match lookupEnum "frc" mappings_frc value with
      | .ok l => .ok ("charging_mode", l)
      | .error e => .error e
    else if name = "nrg" then
      match value with
      | .list vs =>
          if 15 ≤ vs.length then .ok ("energy", nrgStruct vs)
          else .error (.indexError vs.length)
      | _ => .error (.typeError "object is not subscriptable")
    else if name = "psm" then
      match lookupEnum "psm" mappings_psm value with
      | .ok l => .ok ("phase_mode", l)
      | .error e => .error e
    else if name = "tma" then
      match value with
      | .list vs =>
          if vs.length = 0 then .ok ("temperature", .null)
          else
            match sumNums vs with
            | .ok s => .ok ("temperature", .num (s / (vs.length : ℚ)))
            | .error e => .error e
      | _ => .error (.typeError "object has no len")
    else if name = "ust" then
      match lookupEnum "ust" mappings_ust value with
      | .ok l => .ok ("cable_lock_mode", l)
      | .error e => .error e
    else if name = "var" then
      match lookupEnum "var" mappings_var value with
      | .ok l => .ok ("device_model", l)
      | .error e => .error e
    else .ok (name, value)

end Lite

/-- Lexicographic comparison of character sequences by code point, the
order Python's sorted uses on strings. -/
def charListLe : List Char → List Char → Bool
  | [], _ => true
  | _ :: _, [] => false
  | a :: as, b :: bs =>
    if a.toNat < b.toNat then true
    else if a.toNat = b.toNat then charListLe as bs
    else false

/-- Python string comparison a <= b (code-point lexicographic). -/
def strLe (a b : String) : Bool := charListLe a.data b.data

/-- The order relation on strings used by orderDict, as a Prop. -/
def strLeR (a b : String) : Prop := strLe a b = true

instance : DecidableRel strLeR :=
  fun a b => inferInstanceAs (Decidable (strLe a b = true))

/-- Python dict assignment d[k] = v on the dict modelled by d: if k is
already a key, the value is replaced in place (position kept); otherwise
the pair is appended at the end. -/
def dictInsert (d : Obj) (k : String) (v : Val) : Obj :=
  if d.any (fun p => p.1 = k) then
    d.map (fun p => if p.1 = k then (k, v) else p)
  else d ++ [(k, v)]

/-- Python dict lookup d[k] on an association list: value of the first
pair with key k (total here; the mapper only looks up present keys). -/
def valOf : Obj → String → Val
  | [], _ => .null
  | (k', v) :: rest, k => if k' = k then v else valOf rest k

/-- _StatusMapper.__order_dict: a fresh dict whose keys are the sorted
keys of the argument, each bound to its value in the argument. -/
def orderDict (d : Obj) : Obj :=
  (List.insertionSort strLeR (d.map Prod.fst)).map
    (fun k => (k, valOf d k))

namespace Lite

/-- The loop of _StatusMapper.map_status_response: map each item and
assign the result into the accumulating dict, stopping at the first
raised error. -/
def mapAll : Obj → Obj → Except MapError Obj
  | [], acc => .ok acc
  | p :: rest, acc =>
    match mapElement p with
    | .ok (n, v) => mapAll rest (dictInsert acc n v)
    | .error e => .error e

/-- _StatusMapper.map_status_response of goecharger_api_lite: translate
every item into a fresh dict, then order that dict by its (translated)
keys. -/
def mapStatusResponse (response : Obj) : Except MapError Obj :=
  match mapAll response [] with
  | .ok mapped => .ok (orderDict mapped)
  | .error e => .error e

end Lite

namespace Legacy

/-- _StatusMapper.__map_element of the goecharger package variant: same
chain as the api_lite variant except that it has no "dwo" and no "ust"
branch (and hence no cable-lock table).  The enum tables are textually
identical to the api_lite ones and are shared. -/
def mapElement (element : String × Val) : Except MapError (String × Val) :=
  match element with
  | (name, value) =>
    if name = "acu" then .ok ("ampere", value)
    else if name = "ama" then .ok ("ampere_device_maximum", value)
    else if name = "amp" then .ok ("ampere_allowed", value)
    else if name = "car" then
      match Lite.lookupEnum "car" Lite.mappings_car value with
      | .ok l => .ok ("car_state", l)
      | .error e => .error e
    else if name = "err" then
      match Lite.lookupEnum "err" Lite.mappings_err value with
      | .ok l => .ok ("error", l)
      | .error e => .error e
    else if name = "frc" then
      match Lite.lookupEnum "frc" Lite.mappings_frc value with
      | .ok l => .ok ("charging_mode", l)
      | .error e => .error e
    else if name = "nrg" then
      match value with
      | .list vs =>
          if 15 ≤ vs.length then .ok ("energy", Lite.nrgStruct vs)
          else .error (.indexError vs.length)
      | _ => .error (.typeError "object is not subscriptable")
    else if name = "psm" then
      match Lite.lookupEnum "psm" Lite.mappings_psm value with
      | .ok l => .ok ("phase_mode", l)
      | .error e => .error e
    else if name = "tma" then
      match value with
      | .list vs =>
          if vs.length = 0 then .ok ("temperature", .null)
          else
            match Lite.sumNums vs with
            | .ok s => .ok ("temperature", .num (s / (vs.length : ℚ)))
            | .error e => .error e
      | _ => .error (.typeError "object has no len")
    else if name = "var" then
      match Lite.lookupEnum "var" Lite.mappings_var value with
      | .ok l => .ok ("device_model", l)
      | .error e => .error e
    else .ok (name, value)

/-- The loop of map_status_response in the goecharger variant. -/
def mapAll : Obj → Obj → Except MapError Obj
  | [], acc => .ok acc
  | p :: rest, acc =>
    match mapElement p with
    | .ok (n, v) => mapAll rest (dictInsert acc n v)
    | .error e => .error e

/-- _StatusMapper.map_status_response of the goecharger variant. -/
def mapStatusResponse (response : Obj) : Except MapError Obj :=
  match mapAll response [] with
  | .ok mapped => .ok (orderDict mapped)
  | .error e => .error e

end Legacy

/-- Whether a translation attempt succeeded (no exception raised). -/
def isOkE {α : Type} : Except MapError α → Bool
  | .ok _ => true
  | .error _ => false

/-- The field codes that have a dedicated branch in the api_lite
__map_element match; every other code takes the pass-through branch. -/
def knownCodes : List String :=
  ["acu", "ama", "amp", "car", "dwo", "err", "frc", "nrg", "psm", "tma",
   "ust", "var"]

/-- The translated name emitted for a field code by the api_lite
__map_element branches (the code itself on the pass-through branch). -/
def semName (name : String) : String :=
  if name = "acu" then "ampere"
  else if name = "ama" then "ampere_device_maximum"
  else if name = "amp" then "ampere_allowed"
  else if name = "car" then "car_state"
  else if name = "dwo" then "charge_limit"
  else if name = "err" then "error"
  else if name = "frc" then "charging_mode"
  else if name = "nrg" then "energy"
  else if name = "psm" then "phase_mode"
  else if name = "tma" then "temperature"
  else if name = "ust" then "cable_lock_mode"
  else if name = "var" then "device_model"
  else name

/-- The field codes carrying a fixed enum table in __map_element. -/
def enumCodes : List String := ["car", "err", "frc", "psm", "ust", "var"]

/-- The enum table consulted for a given enum field code. -/
def enumTableFor (c : String) : Int → Option Val :=
  if c = "car" then Lite.mappings_car
  else if c = "err" then Lite.mappings_err
  else if c = "frc" then Lite.mappings_frc
  else if c = "psm" then Lite.mappings_psm
  else if c = "ust" then Lite.mappings_ust
  else if c = "var" then Lite.mappings_var
  else fun _ => none

/-- The translated pair produced for one input pair, when translation of
that pair succeeds. -/
def okPair (p : String × Val) : Option (String × Val) :=
  match Lite.mapElement p with
  | .ok q => some q
  | .error _ => none

/-- All successfully translated pairs of a response, in input order. -/
def mappedPairs (resp : Obj) : Obj := resp.filterMap okPair

/-- The key sequence of a translation result (empty on error). -/
def keysOf : Except MapError Obj → List String
  | .ok d => d.map Prod.fst
  | .error _ => []

/-- Whether a value is the explicit Python None marker. -/
def isNullV : Val → Bool
  | .null => true
  | _ => false

/-- Whether a translation result for the err field is distinguishable
from the "no error" null marker: either a string label (a different
constructor from null) or an identifiable error. -/
def errDistinct : Except MapError (String × Val) → Bool
  | .ok (_, .str _) => true
  | .error _ => true
  | _ => false

instance : IsTotal String strLeR := by
  constructor
  have key : ∀ as bs : List Char,
      charListLe as bs = true ∨ charListLe bs as = true := by
    intro as
    induction as with
    | nil => intro bs; left; rfl
    | cons x xs ih =>
      intro bs
      cases bs with
      | nil => right; rfl
      | cons y ys =>
        rcases Nat.lt_trichotomy x.toNat y.toNat with h | h | h
        · left; simp [charListLe, h]
        · rcases ih ys with h' | h'
          · left; simp [charListLe, h, h']
          · right; simp [charListLe, h, h']
        · right; simp [charListLe, h]
  intro a b
  exact key a.data b.data

instance : IsTrans String strLeR := by
  constructor
  have key : ∀ as bs cs : List Char, charListLe as bs = true →
      charListLe bs cs = true → charListLe as cs = true := by
    intro as
    induction as with
    | nil => intro bs cs h₁ h₂; rfl
    | cons x xs ih =>
      intro bs cs h₁ h₂
      cases bs with
      | nil => simp [charListLe] at h₁
      | cons y ys =>
        cases cs with
        | nil => simp [charListLe] at h₂
        | cons z zs =>
          simp only [charListLe] at h₁ h₂ ⊢
          split_ifs at h₁ h₂ ⊢ <;> try omega
          all_goals simp_all
          exact ih ys zs h₁ h₂
  intro a b c h₁ h₂
  exact key a.data b.data c.data h₁ h₂

instance : IsAntisymm String strLeR := by
  constructor
  have key : ∀ as bs : List Char, charListLe as bs = true →
      charListLe bs as = true → as = bs := by
    intro as
    induction as with
    | nil =>
      intro bs h₁ h₂
      cases bs with
      | nil => rfl
      | cons y ys => simp [charListLe] at h₂
    | cons x xs ih =>
      intro bs h₁ h₂
      cases bs with
      | nil => simp [charListLe] at h₁
      | cons y ys =>
        simp only [charListLe] at h₁ h₂
        split_ifs at h₁ h₂ <;> try omega
        have hxy : x = y := Char.ext (UInt32.toNat.inj (by assumption))
        have hrest : xs = ys := by
          apply ih
          · exact h₁
          · simpa using h₂
        rw [hxy, hrest]
  intro a b h₁ h₂
  cases a with
  | mk da =>
    cases b with
    | mk db => exact congrArg String.mk (key da db h₁ h₂)


/-- Evaluating the wrapper of one enum branch: the emitted name is the
branch's fixed semantic name. -/
theorem matchOk_fst (nm : String) (e : Except MapError Val)
    (out : String × Val)
    (h : (match e with
          | .ok l => (.ok (nm, l) : Except MapError (String × Val))
          | .error err => .error err) = .ok out) : out.1 = nm := by
  cases e with
  | ok l => cases h; rfl
  | error err => exact Except.noConfusion h

/-- The nrg branch of __map_element, isolated. -/
theorem mapElement_nrg (vs : List Val) :
    Lite.mapElement ("nrg", .list vs) =
      if 15 ≤ vs.length then .ok ("energy", Lite.nrgStruct vs)
      else .error (.indexError vs.length) := rfl

/-- The tma branch of __map_element, isolated. -/
theorem mapElement_tma (vs : List Val) :
    Lite.mapElement ("tma", .list vs) =
      if vs.length = 0 then .ok ("temperature", .null)
      else
        match Lite.sumNums vs with
        | .ok s => .ok ("temperature", .num (s / (vs.length : ℚ)))
        | .error e => .error e := rfl

/-- Whenever translating one element succeeds, the emitted key is the
translated name of the element's field code. -/
theorem mapElement_ok_fst (c : String) (v : Val) (out : String × Val)
    (h : Lite.mapElement (c, v) = .ok out) : out.1 = semName c := by
  simp only [Lite.mapElement] at h
  by_cases h1 : c = "acu"
  · subst h1; rw [if_pos rfl] at h; injection h with h'; subst h'; rfl
  rw [if_neg h1] at h
  by_cases h2 : c = "ama"
  · subst h2; rw [if_pos rfl] at h; injection h with h'; subst h'
    simp [semName, h1]
  rw [if_neg h2] at h
  by_cases h3 : c = "amp"
  · subst h3; rw [if_pos rfl] at h; injection h with h'; subst h'
    simp [semName, h1, h2]
  rw [if_neg h3] at h
  by_cases h4 : c = "car"
  · subst h4
    rw [if_pos rfl] at h
    have := matchOk_fst "car_state"
      (Lite.lookupEnum "car" Lite.mappings_car v) out h
    rw [this]; simp [semName, h1, h2, h3]
  rw [if_neg h4] at h
  by_cases h5 : c = "dwo"
  · subst h5; rw [if_pos rfl] at h; injection h with h'; subst h'
    simp [semName, h1, h2, h3, h4]
  rw [if_neg h5] at h
  by_cases h6 : c = "err"
  · subst h6
    rw [if_pos rfl] at h
    have := matchOk_fst "error"
      (Lite.lookupEnum "err" Lite.mappings_err v) out h
    rw [this]; simp [semName, h1, h2, h3, h4, h5]
  rw [if_neg h6] at h
  by_cases h7 : c = "frc"
  · subst h7
    rw [if_pos rfl] at h
    have := matchOk_fst "charging_mode"
      (Lite.lookupEnum "frc" Lite.mappings_frc v) out h
    rw [this]; simp [semName, h1, h2, h3, h4, h5, h6]
  rw [if_neg h7] at h
  by_cases h8 : c = "nrg"
  · subst h8
    rw [if_pos rfl] at h
    cases v with
    | num q => exact Except.noConfusion h
    | str s => exact Except.noConfusion h
    | null => exact Except.noConfusion h
    | dict es => exact Except.noConfusion h
    | list vs =>
      replace h : (if 15 ≤ vs.length
          then (.ok ("energy", Lite.nrgStruct vs) :
            Except MapError (String × Val))
          else .error (.indexError vs.length)) = .ok out := h
      split_ifs at h
      injection h with h'; subst h'
      simp [semName, h1, h2, h3, h4, h5, h6, h7]
  rw [if_neg h8] at h
  by_cases h9 : c = "psm"
  · subst h9
    rw [if_pos rfl] at h
    have := matchOk_fst "phase_mode"
      (Lite.lookupEnum "psm" Lite.mappings_psm v) out h
    rw [this]; simp [semName, h1, h2, h3, h4, h5, h6, h7, h8]
  rw [if_neg h9] at h
  by_cases h10 : c = "tma"
  · subst h10
    rw [if_pos rfl] at h
    cases v with
    | num q => exact Except.noConfusion h
    | str s => exact Except.noConfusion h
    | null => exact Except.noConfusion h
    | dict es => exact Except.noConfusion h
    | list vs =>
      replace h : (if vs.length = 0
          then (.ok ("temperature", .null) :
            Except MapError (String × Val))
          else
            match Lite.sumNums vs with
            | .ok s => .ok ("temperature", .num (s / (vs.length : ℚ)))
            | .error e => .error e) = .ok out := h
      split_ifs at h
      · injection h with h'; subst h'
        simp [semName, h1, h2, h3, h4, h5, h6, h7, h8, h9]
      · cases hS : Lite.sumNums vs with
        | ok s =>
          rw [hS] at h
          injection h with h'; subst h'
          simp [semName, h1, h2, h3, h4, h5, h6, h7, h8, h9]
        | error e =>
          rw [hS] at h
          exact Except.noConfusion h
  rw [if_neg h10] at h
  by_cases h11 : c = "ust"
  · subst h11
    rw [if_pos rfl] at h
    have := matchOk_fst "cable_lock_mode"
      (Lite.lookupEnum "ust" Lite.mappings_ust v) out h
    rw [this]; simp [semName, h1, h2, h3, h4, h5, h6, h7, h8, h9, h10]
  rw [if_neg h11] at h
  by_cases h12 : c = "var"
  · subst h12
    rw [if_pos rfl] at h
    have := matchOk_fst "device_model"
      (Lite.lookupEnum "var" Lite.mappings_var v) out h
    rw [this]
    simp [semName, h1, h2, h3, h4, h5, h6, h7, h8, h9, h10, h11]
  rw [if_neg h12] at h
  injection h with h'; subst h'
  simp [semName, h1, h2, h3, h4, h5, h6, h7, h8, h9, h10, h11, h12]

/-- Python sum over a list of numbers adds them up. -/
theorem sumNums_map (qs : List ℚ) :
    Lite.sumNums (qs.map Val.num) = .ok qs.sum := by
  induction qs with
  | nil => rfl
  | cons q rest ih => simp [Lite.sumNums, ih]

/-- Assigning a fresh key into a dict appends the pair at the end. -/
theorem dictInsert_append (d : Obj) (k : String) (v : Val)
    (h : k ∉ d.map Prod.fst) : dictInsert d k v = d ++ [(k, v)] := by
  unfold dictInsert
  rw [if_neg]
  simp only [List.any_eq_true, decide_eq_true_eq, not_exists, not_and]
  intro p hp hpk
  exact h (List.mem_map.mpr ⟨p, hp, hpk⟩)

/-- One step of the translation loop on a successful element. -/
theorem mapAll_cons_ok (p : String × Val) (rest acc : Obj) (n : String)
    (v : Val) (hE : Lite.mapElement p = .ok (n, v)) :
    Lite.mapAll (p :: rest) acc = Lite.mapAll rest (dictInsert acc n v) := by
  simp only [Lite.mapAll, hE]

/-- One step of the translation loop on a failing element. -/
theorem mapAll_cons_err (p : String × Val) (rest acc : Obj) (e : MapError)
    (hE : Lite.mapElement p = .error e) :
    Lite.mapAll (p :: rest) acc = .error e := by
  simp only [Lite.mapAll, hE]

/-- If the translation loop succeeds, every element translated. -/
theorem mapAll_ok_all : ∀ (resp acc d : Obj),
    Lite.mapAll resp acc = .ok d →
    ∀ p ∈ resp, isOkE (Lite.mapElement p) = true := by
  intro resp
  induction resp with
  | nil => intro acc d h p hp; cases hp
  | cons p rest ih =>
    intro acc d h p' hp'
    cases hE : Lite.mapElement p with
    | ok q =>
      obtain ⟨n, v⟩ := q
      rw [mapAll_cons_ok p rest acc n v hE] at h
      rcases List.mem_cons.mp hp' with rfl | hp''
      · simp [isOkE, hE]
      · exact ih (dictInsert acc n v) d h p' hp''
    | error e =>
      rw [mapAll_cons_err p rest acc e hE] at h
      exact absurd h (by simp)

/-- When every element translates and the translated keys are pairwise
distinct, the translation loop appends the translated pairs in input
order, with no overwriting. -/
theorem mapAll_eq : ∀ (resp acc : Obj),
    (∀ p ∈ resp, isOkE (Lite.mapElement p) = true) →
    ((acc ++ mappedPairs resp).map Prod.fst).Nodup →
    Lite.mapAll resp acc = .ok (acc ++ mappedPairs resp) := by
  intro resp
  induction resp with
  | nil => intro acc hok hnd; simp [Lite.mapAll, mappedPairs]
  | cons p rest ih =>
    intro acc hok hnd
    cases hE : Lite.mapElement p with
    | ok q =>
      obtain ⟨n, v⟩ := q
      have hmp : mappedPairs (p :: rest) = (n, v) :: mappedPairs rest := by
        simp [mappedPairs, okPair, hE]
      rw [hmp] at hnd ⊢
      have hnotin : n ∉ acc.map Prod.fst := by
        intro hmem
        rw [List.map_append] at hnd
        rcases List.nodup_append.mp hnd with ⟨-, -, hdisj⟩
        exact hdisj hmem (by simp)
      rw [mapAll_cons_ok p rest acc n v hE]
      rw [dictInsert_append acc n v hnotin]
      have hres := ih (acc ++ [(n, v)])
        (fun p' hp' => hok p' (List.mem_cons_of_mem _ hp'))
        (by simpa [List.append_assoc] using hnd)
      rw [hres]
      simp
    | error e =>
      have := hok p (by simp)
      simp [isOkE, hE] at this

/-- Under elementwise success, every input entry contributes exactly one
translated pair. -/
theorem mappedPairs_length : ∀ resp : Obj,
    (∀ p ∈ resp, isOkE (Lite.mapElement p) = true) →
    (mappedPairs resp).length = resp.length := by
  intro resp
  induction resp with
  | nil => intro hok; rfl
  | cons p rest ih =>
    intro hok
    cases hE : Lite.mapElement p with
    | ok q =>
      have : mappedPairs (p :: rest) = q :: mappedPairs rest := by
        simp [mappedPairs, okPair, hE]
      rw [this]
      simp [ih (fun p' hp' => hok p' (List.mem_cons_of_mem _ hp'))]
    | error e =>
      have := hok p (by simp)
      simp [isOkE, hE] at this

/-- Under elementwise success, the translated keys are the translated
names of the input codes, in input order. -/
theorem mappedPairs_fst : ∀ resp : Obj,
    (∀ p ∈ resp, isOkE (Lite.mapElement p) = true) →
    (mappedPairs resp).map Prod.fst = resp.map (fun p => semName p.1) := by
  intro resp
  induction resp with
  | nil => intro hok; rfl
  | cons p rest ih =>
    intro hok
    cases hE : Lite.mapElement p with
    | ok q =>
      have hmp : mappedPairs (p :: rest) = q :: mappedPairs rest := by
        simp [mappedPairs, okPair, hE]
      rw [hmp]
      obtain ⟨c, v⟩ := p
      have hq : q.1 = semName c := mapElement_ok_fst c v q hE
      simp only [List.map_cons, hq,
        ih (fun p' hp' => hok p' (List.mem_cons_of_mem _ hp'))]
    | error e =>
      have := hok p (by simp)
      simp [isOkE, hE] at this

/-- Dict lookup of a present key under distinct keys gives its value. -/
theorem valOf_of_mem : ∀ (d : Obj) (k : String) (v : Val),
    (k, v) ∈ d → (d.map Prod.fst).Nodup → valOf d k = v := by
  intro d
  induction d with
  | nil => intro k v hm; cases hm
  | cons p rest ih =>
    intro k v hm hnd
    obtain ⟨k', v'⟩ := p
    simp only [List.map_cons, List.nodup_cons] at hnd
    rcases List.mem_cons.mp hm with heq | hm'
    · cases heq
      simp [valOf]
    · have hk : k' ≠ k := by
        intro hk'
        subst hk'
        exact hnd.1 (List.mem_map.mpr ⟨(k', v), hm', rfl⟩)
      simp only [valOf, if_neg hk]
      exact ih k v hm' hnd.2

/-- Dict lookup is invariant under permutation when keys are distinct. -/
theorem valOf_perm (d₁ d₂ : Obj) (hperm : d₁.Perm d₂)
    (hnd : (d₁.map Prod.fst).Nodup) : ∀ k, valOf d₁ k = valOf d₂ k := by
  induction hperm with
  | nil => intro k; rfl
  | cons x hp ih =>
    intro k
    obtain ⟨k', v'⟩ := x
    simp only [List.map_cons, List.nodup_cons] at hnd
    simp only [valOf]
    split_ifs with hk
    · rfl
    · exact ih hnd.2 k
  | swap x y l =>
    intro k
    obtain ⟨kx, vx⟩ := x
    obtain ⟨ky, vy⟩ := y
    have hxy : ky ≠ kx := by
      simp only [List.map_cons, List.nodup_cons, List.mem_cons] at hnd
      intro hk
      exact hnd.1 (Or.inl hk)
    simp only [valOf]
    split_ifs with ha hb hb
    · subst ha; exact absurd hb.symm hxy
    · rfl
    · rfl
    · rfl
  | trans hp₁ hp₂ ih₁ ih₂ =>
    intro k
    have hnd₂ := (hp₁.map Prod.fst).nodup_iff.mp hnd
    rw [ih₁ hnd k, ih₂ hnd₂ k]

/-- The keys of the ordered dict are the sorted original keys. -/
theorem orderDict_fst (d : Obj) :
    (orderDict d).map Prod.fst =
      List.insertionSort strLeR (d.map Prod.fst) := by
  simp only [orderDict, List.map_map]
  have hid : (Prod.fst ∘ fun k => (k, valOf d k)) = id := rfl
  rw [hid, List.map_id]

/-- Ordering a dict preserves the number of entries. -/
theorem orderDict_length (d : Obj) : (orderDict d).length = d.length := by
  simp only [orderDict, List.length_map]
  rw [(List.perm_insertionSort strLeR (d.map Prod.fst)).length_eq]
  simp

/-- The ordered dict's key sequence is sorted. -/
theorem orderDict_sorted (d : Obj) :
    List.Sorted strLeR ((orderDict d).map Prod.fst) := by
  rw [orderDict_fst]
  exact List.sorted_insertionSort strLeR (d.map Prod.fst)

/-- Ordering is the same for permuted dicts with distinct keys. -/
theorem orderDict_perm (d₁ d₂ : Obj) (hperm : d₁.Perm d₂)
    (hnd : (d₁.map Prod.fst).Nodup) : orderDict d₁ = orderDict d₂ := by
  have hp' : (List.insertionSort strLeR (d₁.map Prod.fst)).Perm
      (List.insertionSort strLeR (d₂.map Prod.fst)) :=
    (List.perm_insertionSort strLeR _).trans
      ((hperm.map Prod.fst).trans (List.perm_insertionSort strLeR _).symm)
  have hkeys : List.insertionSort strLeR (d₁.map Prod.fst) =
      List.insertionSort strLeR (d₂.map Prod.fst) :=
    List.eq_of_perm_of_sorted hp'
      (List.sorted_insertionSort strLeR _)
      (List.sorted_insertionSort strLeR _)
  have hfun : (fun k => (k, valOf d₁ k)) = (fun k => (k, valOf d₂ k)) := by
    funext k
    rw [valOf_perm d₁ d₂ hperm hnd k]
  unfold orderDict
  rw [hkeys, hfun]

/-- A pair of a dict with distinct keys stays in the ordered dict. -/
theorem orderDict_mem (d : Obj) (k : String) (v : Val)
    (hnd : (d.map Prod.fst).Nodup) (hm : (k, v) ∈ d) :
    (k, v) ∈ orderDict d := by
  have hk : k ∈ List.insertionSort strLeR (d.map Prod.fst) :=
    (List.perm_insertionSort strLeR _).mem_iff.mpr
      (List.mem_map.mpr ⟨(k, v), hm, rfl⟩)
  have hmem : (k, valOf d k) ∈ orderDict d := List.mem_map.mpr ⟨k, hk, rfl⟩
  rwa [valOf_of_mem d k v hm hnd] at hmem

/-- map_status_response under elementwise success and distinct translated
keys: order the appended translated pairs. -/
theorem mapStatusResponse_eq (resp : Obj)
    (hok : ∀ p ∈ resp, isOkE (Lite.mapElement p) = true)
    (hnd : ((mappedPairs resp).map Prod.fst).Nodup) :
    Lite.mapStatusResponse resp = .ok (orderDict (mappedPairs resp)) := by
  unfold Lite.mapStatusResponse
  rw [mapAll_eq resp [] hok (by simpa using hnd)]
  simp

/-- A successful map_status_response translated every element. -/
theorem mapStatusResponse_ok_all (resp out : Obj)
    (h : Lite.mapStatusResponse resp = .ok out) :
    ∀ p ∈ resp, isOkE (Lite.mapElement p) = true := by
  unfold Lite.mapStatusResponse at h
  cases hA : Lite.mapAll resp [] with
  | ok d => exact mapAll_ok_all resp [] d hA
  | error e => rw [hA] at h; exact absurd h (by simp)

/-- The successful result is the ordered list of translated pairs. -/
theorem mapStatusResponse_ok_eq (resp out : Obj)
    (h : Lite.mapStatusResponse resp = .ok out)
    (hnd : ((mappedPairs resp).map Prod.fst).Nodup) :
    out = orderDict (mappedPairs resp) := by
  have hok := mapStatusResponse_ok_all resp out h
  have heq := mapStatusResponse_eq resp hok hnd
  rw [heq] at h
  injection h with h'
  exact h'.symm

/-- The two variants translate any element whose code is neither dwo nor
ust identically. -/
theorem legacy_mapElement_eq (c : String) (v : Val) (hdwo : c ≠ "dwo")
    (hust : c ≠ "ust") : Legacy.mapElement (c, v) = Lite.mapElement (c, v) := by
  by_cases h1 : c = "acu"
  · subst h1; rfl
  by_cases h2 : c = "ama"
  · subst h2; rfl
  by_cases h3 : c = "amp"
  · subst h3; rfl
  by_cases h4 : c = "car"
  · subst h4; rfl
  by_cases h5 : c = "err"
  · subst h5; rfl
  by_cases h6 : c = "frc"
  · subst h6; rfl
  by_cases h7 : c = "nrg"
  · subst h7; rfl
  by_cases h8 : c = "psm"
  · subst h8; rfl
  by_cases h9 : c = "tma"
  · subst h9; rfl
  by_cases h10 : c = "var"
  · subst h10; rfl
  have hl : Legacy.mapElement (c, v) = .ok (c, v) := by
    simp only [Legacy.mapElement]
    rw [if_neg h1, if_neg h2, if_neg h3, if_neg h4, if_neg h5, if_neg h6,
      if_neg h7, if_neg h8, if_neg h9, if_neg h10]
  have hr : Lite.mapElement (c, v) = .ok (c, v) := by
    simp only [Lite.mapElement]
    rw [if_neg h1, if_neg h2, if_neg h3, if_neg h4, if_neg hdwo, if_neg h5,
      if_neg h6, if_neg h7, if_neg h8, if_neg h9, if_neg hust, if_neg h10]
  rw [hl, hr]

/-- One step of the legacy translation loop on a successful element. -/
theorem legacy_mapAll_cons_ok (p : String × Val) (rest acc : Obj)
    (n : String) (v : Val) (hE : Legacy.mapElement p = .ok (n, v)) :
    Legacy.mapAll (p :: rest) acc =
      Legacy.mapAll rest (dictInsert acc n v) := by
  simp only [Legacy.mapAll, hE]

/-- One step of the legacy translation loop on a failing element. -/
theorem legacy_mapAll_cons_err (p : String × Val) (rest acc : Obj)
    (e : MapError) (hE : Legacy.mapElement p = .error e) :
    Legacy.mapAll (p :: rest) acc = .error e := by
  simp only [Legacy.mapAll, hE]

/-- The two variants run the same translation loop on responses free of
dwo and ust codes. -/
theorem legacy_mapAll_eq : ∀ resp : Obj,
    (∀ p ∈ resp, p.1 ≠ "dwo" ∧ p.1 ≠ "ust") →
    ∀ acc, Legacy.mapAll resp acc = Lite.mapAll resp acc := by
  intro resp
  induction resp with
  | nil => intro hno acc; rfl
  | cons p rest ih =>
    intro hno acc
    obtain ⟨c, v⟩ := p
    have hc := hno (c, v) (by simp)
    have hE : Legacy.mapElement (c, v) = Lite.mapElement (c, v) :=
      legacy_mapElement_eq c v hc.1 hc.2
    cases hL : Lite.mapElement (c, v) with
    | ok q =>
      obtain ⟨n, v'⟩ := q
      rw [legacy_mapAll_cons_ok _ rest acc n v' (hE.trans hL),
        mapAll_cons_ok _ rest acc n v' hL]
      exact ih (fun p' hp' => hno p' (List.mem_cons_of_mem _ hp'))
        (dictInsert acc n v')
    | error e =>
      rw [legacy_mapAll_cons_err _ rest acc e (hE.trans hL),
        mapAll_cons_err _ rest acc e hL]

/-- The two variants agree on any response without dwo and ust codes. -/
theorem legacy_mapStatusResponse_eq (resp : Obj)
    (hno : ∀ p ∈ resp, p.1 ≠ "dwo" ∧ p.1 ≠ "ust") :
    Legacy.mapStatusResponse resp = Lite.mapStatusResponse resp := by
  unfold Legacy.mapStatusResponse Lite.mapStatusResponse
  rw [legacy_mapAll_eq resp hno []]

/-- An enum branch on an in-table integral value yields the table label. -/
theorem enumBranch_ok (tn nm : String) (tb : Int → Option Val) (q : ℚ)
    (l : Val) (hden : q.den = 1) (hl : tb q.num = some l) :
    (match Lite.lookupEnum tn tb (.num q) with
     | .ok lab => (.ok (nm, lab) : Except MapError (String × Val))
     | .error e => .error e) = .ok (nm, l) := by
  simp [Lite.lookupEnum, hden, hl]

/-- An enum branch on a numeric value outside the table raises the
KeyError of that table. -/
theorem enumBranch_err (tn nm : String) (tb : Int → Option Val) (q : ℚ)
    (hmiss : q.den = 1 → tb q.num = none) :
    (match Lite.lookupEnum tn tb (.num q) with
     | .ok lab => (.ok (nm, lab) : Except MapError (String × Val))
     | .error e => .error e) = .error (.keyError tn (.num q)) := by
  by_cases hden : q.den = 1
  · simp [Lite.lookupEnum, hden, hmiss hden]
  · simp [Lite.lookupEnum, hden]

/-- C1 counterexample: on the spec's own scenario input the keys come out
ordered by translated name (car_state, charging_mode, error), not in the
order corresponding to the original codes car, err, frc (which would be
car_state, error, charging_mode). -/
theorem c1_counterexample :
    keysOf (Lite.mapStatusResponse
      [("car", .num 2), ("err", .num 0), ("frc", .num 1)]) =
      ["car_state", "charging_mode", "error"] ∧
    ((["car_state", "charging_mode", "error"] : List String) ==
      ["car_state", "error", "charging_mode"]) = false :=
  ⟨rfl, rfl⟩

/-- C1 (amended): for every raw status mapping on which translation
succeeds, the entries of the output are ordered by ascending lexicographic
order of the output keys, i.e. of the TRANSLATED names, not of the
original field codes. -/
theorem c1_sorted_by_translated_name (resp out : Obj)
    (h : Lite.mapStatusResponse resp = .ok out) :
    List.Sorted strLeR (out.map Prod.fst) := by
  unfold Lite.mapStatusResponse at h
  cases hA : Lite.mapAll resp [] with
  | ok d =>
    rw [hA] at h
    replace h : Except.ok (orderDict d) = Except.ok out := h
    injection h with h'
    rw [← h']
    exact orderDict_sorted d
  | error e =>
    rw [hA] at h
    exact absurd h (by simp)

/-- C1 witness: the scenario output keys, sorted by translated name. -/
theorem c1_witness :
    List.Sorted strLeR
      (([("car_state", Val.str "Charging"), ("charging_mode", Val.str "off"),
        ("error", Val.null)] : Obj).map Prod.fst) :=
  c1_sorted_by_translated_name
    [("car", .num 2), ("err", .num 0), ("frc", .num 1)] _ rfl

/-- C2: for each enum field code, a numeric raw value equal to an integer
of the field's table translates to the table's documented label under the
field's semantic name, and any other numeric value raises the KeyError of
that table, never passing the raw value through. -/
theorem c2_enum_domain :
    ∀ c ∈ enumCodes, ∀ q : ℚ,
      (∀ l : Val, q.den = 1 → enumTableFor c q.num = some l →
        Lite.mapElement (c, .num q) = .ok (semName c, l)) ∧
      ((q.den = 1 → enumTableFor c q.num = none) →
        Lite.mapElement (c, .num q) = .error (.keyError c (.num q))) := by
  intro c hc q
  have hc' : c = "car" ∨ c = "err" ∨ c = "frc" ∨ c = "psm" ∨ c = "ust" ∨
      c = "var" := by simpa [enumCodes] using hc
  rcases hc' with rfl | rfl | rfl | rfl | rfl | rfl <;>
    exact ⟨fun l hden hl => enumBranch_ok _ _ _ q l hden hl,
      fun hmiss => enumBranch_err _ _ _ q hmiss⟩

/-- C2 witness: an in-domain car value yields its label; an out-of-domain
var value raises the var KeyError. -/
theorem c2_witness :
    Lite.mapElement ("car", .num 2) = .ok ("car_state", .str "Charging") ∧
    Lite.mapElement ("var", .num 7) = .error (.keyError "var" (.num 7)) :=
  ⟨(c2_enum_domain "car" (by simp [enumCodes]) 2).1 (.str "Charging")
      rfl rfl,
    (c2_enum_domain "var" (by simp [enumCodes]) 7).2 (fun _ => rfl)⟩

/-- C3: a 15-element nrg list becomes one energy entry holding the nested
structure grouped by quantity then phase, positionally: indices 0-3 are
voltage L1,L2,L3,N; 4-6 current L1,L2,L3; 7-11 power L1,L2,L3,N,total;
12-14 power_factor L1,L2,L3; and on the spec's sample the full mapping
yields exactly the grouped values of the spec. -/
theorem c3_energy_decomposition :
    (∀ v0 v1 v2 v3 v4 v5 v6 v7 v8 v9 v10 v11 v12 v13 v14 : Val,
      Lite.mapElement ("nrg",
        .list [v0, v1, v2, v3, v4, v5, v6, v7, v8, v9, v10, v11, v12,
          v13, v14]) =
        .ok ("energy", .dict [
          ("voltage", .dict [("L1", v0), ("L2", v1), ("L3", v2), ("N", v3)]),
          ("current", .dict [("L1", v4), ("L2", v5), ("L3", v6)]),
          ("power", .dict [("L1", v7), ("L2", v8), ("L3", v9), ("N", v10),
            ("total", v11)]),
          ("power_factor", .dict [("L1", v12), ("L2", v13), ("L3", v14)])])) ∧
    Lite.mapStatusResponse [("nrg", .list [.num 230, .num 231, .num 229,
        .num 0, .num 6, .num 6, .num 6, .num 1380, .num 1386, .num 1374,
        .num 0, .num 4140, .num 0.98, .num 0.97, .num 0.99])] =
      .ok [("energy", .dict [
        ("voltage", .dict [("L1", .num 230), ("L2", .num 231),
          ("L3", .num 229), ("N", .num 0)]),
        ("current", .dict [("L1", .num 6), ("L2", .num 6), ("L3", .num 6)]),
        ("power", .dict [("L1", .num 1380), ("L2", .num 1386),
          ("L3", .num 1374), ("N", .num 0), ("total", .num 4140)]),
        ("power_factor", .dict [("L1", .num 0.98), ("L2", .num 0.97),
          ("L3", .num 0.99)])])] :=
  ⟨fun _ _ _ _ _ _ _ _ _ _ _ _ _ _ _ => rfl, rfl⟩

/-- C8 counterexample: a 16-element nrg list is not rejected; translation
succeeds, silently ignoring the extra element. -/
theorem c8_counterexample :
    isOkE (Lite.mapElement ("nrg", .list [.num 1, .num 2, .num 3, .num 4,
      .num 5, .num 6, .num 7, .num 8, .num 9, .num 10, .num 11, .num 12,
      .num 13, .num 14, .num 15, .num 16])) = true ∧
    (([Val.num 1, .num 2, .num 3, .num 4, .num 5, .num 6, .num 7, .num 8,
      .num 9, .num 10, .num 11, .num 12, .num 13, .num 14, .num 15,
      .num 16] : List Val).length == 15) = false :=
  ⟨rfl, rfl⟩

/-- C8 (amended): an nrg list shorter than 15 fails with an index error at
the list's length (no silent truncation), while a list of length 15 or
more succeeds using only value[0]..value[14], silently ignoring extras. -/
theorem c8_nrg_length_behavior (vs : List Val) :
    (vs.length < 15 →
      Lite.mapElement ("nrg", .list vs) = .error (.indexError vs.length)) ∧
    (15 ≤ vs.length →
      Lite.mapElement ("nrg", .list vs) = .ok ("energy", Lite.nrgStruct vs)) := by
  constructor
  · intro h
    rw [mapElement_nrg, if_neg (by omega)]
  · intro h
    rw [mapElement_nrg, if_pos h]

/-- C8 witness: the empty nrg list fails with IndexError at index 0. -/
theorem c8_witness :
    Lite.mapElement ("nrg", .list []) = .error (.indexError 0) :=
  (c8_nrg_length_behavior []).1 (by decide)

/-- C10 counterexample: on the raw mapping with the single key dwo the two
variants disagree: the goecharger variant passes dwo through unchanged,
the api_lite variant renames it to charge_limit. -/
theorem c10_counterexample :
    Legacy.mapStatusResponse [("dwo", .num 5)] = .ok [("dwo", .num 5)] ∧
    Lite.mapStatusResponse [("dwo", .num 5)] =
      .ok [("charge_limit", .num 5)] ∧
    (keysOf (Legacy.mapStatusResponse [("dwo", .num 5)]) ==
      keysOf (Lite.mapStatusResponse [("dwo", .num 5)])) = false :=
  ⟨rfl, rfl, rfl⟩

/-- C10 (amended): the two variants' map_status_response are extensionally
equal on every raw mapping containing neither a dwo nor a ust key (the two
codes only the api_lite variant translates). -/
theorem c10_variants_agree (resp : Obj)
    (hno : ∀ p ∈ resp, p.1 ≠ "dwo" ∧ p.1 ≠ "ust") :
    Legacy.mapStatusResponse resp = Lite.mapStatusResponse resp :=
  legacy_mapStatusResponse_eq resp hno

/-- C10 witness: both variants agree on a car status mapping. -/
theorem c10_witness :
    Legacy.mapStatusResponse [("car", .num 3), ("err", .num 0)] =
      Lite.mapStatusResponse [("car", .num 3), ("err", .num 0)] :=
  c10_variants_agree [("car", .num 3), ("err", .num 0)] (by simp)

/-- C4 counterexample: the input entries acu and ampere both translate to
the key ampere; two input entries collapse into one output entry, so the
output has fewer top-level entries than the input. -/
theorem c4_counterexample :
    Lite.mapStatusResponse [("acu", .num 6), ("ampere", .num 7)] =
      .ok [("ampere", .num 7)] ∧
    ((keysOf (Lite.mapStatusResponse
        [("acu", .num 6), ("ampere", .num 7)])).length ==
      ([("acu", Val.num 6), ("ampere", Val.num 7)] : Obj).length) = false :=
  ⟨rfl, rfl⟩

/-- C4 (amended): for every raw status mapping on which translation
succeeds AND whose per-entry translated names are pairwise distinct, the
output has exactly one top-level entry per input entry. -/
theorem c4_entry_count (resp out : Obj)
    (h : Lite.mapStatusResponse resp = .ok out)
    (hnd : ((mappedPairs resp).map Prod.fst).Nodup) :
    out.length = resp.length := by
  have hok := mapStatusResponse_ok_all resp out h
  rw [mapStatusResponse_ok_eq resp out h hnd]
  rw [orderDict_length]
  exact mappedPairs_length resp hok

/-- C4 witness: a two-field response keeps two entries. -/
theorem c4_witness :
    Lite.mapStatusResponse [("var", .num 11), ("acu", .num 6)] =
      .ok [("ampere", .num 6), ("device_model", .str "11KW/16A")] ∧
    ([("ampere", Val.num 6), ("device_model", Val.str "11KW/16A")] :
      Obj).length = ([("var", Val.num 11), ("acu", Val.num 6)] : Obj).length :=
  ⟨rfl, c4_entry_count [("var", .num 11), ("acu", .num 6)]
    [("ampere", .num 6), ("device_model", .str "11KW/16A")] rfl (by decide)⟩

/-- C5 counterexample: the unknown code ampere entered with value 7, but a
later entry acu translated onto the same key, so the output holds value 6
for ampere: the unknown field's value was not preserved. -/
theorem c5_counterexample :
    Lite.mapStatusResponse [("ampere", .num 7), ("acu", .num 6)] =
      .ok [("ampere", .num 6)] ∧
    (((6 : ℚ)) == ((7 : ℚ))) = false :=
  ⟨rfl, by decide⟩

/-- C5 (amended): an element with a code outside the dispatch dictionary
always translates to itself (same code, identical value, never an error);
and in a full mapping the identical pair survives to the output provided
no other entry's translated name collides with that code (in particular
whenever all translated names are pairwise distinct). -/
theorem c5_unknown_passthrough :
    (∀ (c : String) (v : Val), c ∉ knownCodes →
      Lite.mapElement (c, v) = .ok (c, v)) ∧
    (∀ (resp out : Obj) (c : String) (v : Val),
      Lite.mapStatusResponse resp = .ok out → (c, v) ∈ resp →
      c ∉ knownCodes → ((mappedPairs resp).map Prod.fst).Nodup →
      (c, v) ∈ out) := by
  have helem : ∀ (c : String) (v : Val), c ∉ knownCodes →
      Lite.mapElement (c, v) = .ok (c, v) := by
    intro c v hc
    simp only [knownCodes, List.mem_cons, List.not_mem_nil, or_false,
      not_or] at hc
    obtain ⟨n1, n2, n3, n4, n5, n6, n7, n8, n9, n10, n11, n12⟩ := hc
    simp only [Lite.mapElement]
    rw [if_neg n1, if_neg n2, if_neg n3, if_neg n4, if_neg n5, if_neg n6,
      if_neg n7, if_neg n8, if_neg n9, if_neg n10, if_neg n11, if_neg n12]
  refine ⟨helem, ?_⟩
  intro resp out c v h hm hc hnd
  rw [mapStatusResponse_ok_eq resp out h hnd]
  apply orderDict_mem _ _ _ hnd
  exact List.mem_filterMap.mpr ⟨(c, v), hm, by simp [okPair, helem c v hc]⟩

/-- C5 witness: the unknown code xyz passes through a full translation
with its value intact. -/
theorem c5_witness :
    Lite.mapStatusResponse [("xyz", .num 1)] = .ok [("xyz", .num 1)] ∧
    ("xyz", Val.num 1) ∈ (([("xyz", Val.num 1)]) : Obj) :=
  ⟨rfl, c5_unknown_passthrough.2 [("xyz", .num 1)] [("xyz", .num 1)]
    "xyz" (.num 1) rfl (by simp) (by decide) (by decide)⟩

/-- C6: the tma field reduces a numeric list to its arithmetic mean
(sum divided by length); on [20, 22, 24] the result is 22; the empty list
yields the explicit null marker, not an error and not the number zero
(null is a different constructor from any number). -/
theorem c6_temperature_mean :
    (∀ qs : List ℚ,
      Lite.mapElement ("tma", .list (qs.map Val.num)) =
        .ok ("temperature",
          if qs.length = 0 then Val.null
          else Val.num (qs.sum / (qs.length : ℚ)))) ∧
    Lite.mapElement ("tma", .list [.num 20, .num 22, .num 24]) =
      .ok ("temperature", .num 22) ∧
    Lite.mapElement ("tma", .list []) = .ok ("temperature", Val.null) ∧
    isNullV Val.null = true ∧ isNullV (Val.num 0) = false := by
  refine ⟨?_, ?_, rfl, rfl, rfl⟩
  · intro qs
    cases qs with
    | nil => rfl
    | cons q rest =>
      rw [mapElement_tma]
      simp only [List.length_map, List.length_cons]
      rw [if_neg (Nat.succ_ne_zero _), if_neg (Nat.succ_ne_zero _)]
      rw [sumNums_map (q :: rest)]
  · rw [mapElement_tma]
    rw [if_neg (by decide)]
    rw [show Lite.sumNums [Val.num 20, Val.num 22, Val.num 24] =
      .ok ((20 : ℚ) + (22 + (24 + 0))) from rfl]
    have h22 : ((20 : ℚ) + (22 + (24 + 0))) /
        (([Val.num 20, Val.num 22, Val.num 24].length : Nat) : ℚ) = 22 := by
      norm_num
    show Except.ok ("temperature", Val.num (((20 : ℚ) + (22 + (24 + 0))) /
      (([Val.num 20, Val.num 22, Val.num 24].length : Nat) : ℚ))) =
      .ok ("temperature", .num 22)
    rw [h22]

/-- C7: error code 0 translates to the explicit null marker under the key
error, and every result the err field produces for the codes 1 to 24 is
distinguishable from that marker: a string label (a different constructor
from null) or an identifiable lookup error on the reserved gaps. -/
theorem c7_error_zero :
    Lite.mapElement ("err", .num 0) = .ok ("error", Val.null) ∧
    (∀ n : Int, 1 ≤ n → n ≤ 24 →
      errDistinct (Lite.mapElement ("err", .num (n : ℚ))) = true) := by
  constructor
  · rfl
  · intro n h1 h2
    interval_cases n <;> rfl

/-- C7 witness: code 5 yields the string label Overamp. -/
theorem c7_witness :
    errDistinct (Lite.mapElement ("err", .num ((5 : Int) : ℚ))) = true :=
  c7_error_zero.2 5 (by decide) (by decide)

/-- C9: the translator is a function of its input list and the fixed
tables; for raw responses of known, in-domain fields with distinct codes,
the result is invariant under permutation of the input, so the output and
its key order depend only on the set of input entries, not on the input's
iteration order. -/
theorem c9_order_independence (resp1 resp2 : Obj)
    (hperm : resp1.Perm resp2)
    (hnd : (resp1.map Prod.fst).Nodup)
    (hknown : ∀ p ∈ resp1, p.1 ∈ knownCodes)
    (hok : ∀ p ∈ resp1, isOkE (Lite.mapElement p) = true) :
    Lite.mapStatusResponse resp1 = Lite.mapStatusResponse resp2 := by
  have hinj : ∀ a ∈ knownCodes, ∀ b ∈ knownCodes,
      semName a = semName b → a = b := by decide
  have hok2 : ∀ p ∈ resp2, isOkE (Lite.mapElement p) = true :=
    fun p hp => hok p (hperm.mem_iff.mpr hp)
  have hnd1 : ((mappedPairs resp1).map Prod.fst).Nodup := by
    rw [mappedPairs_fst resp1 hok]
    have hmm : resp1.map (fun p => semName p.1) =
        (resp1.map Prod.fst).map semName := by
      rw [List.map_map]
      rfl
    rw [hmm]
    refine List.Nodup.map_on ?_ hnd
    intro x hx y hy hxy
    rcases List.mem_map.mp hx with ⟨px, hpx, rfl⟩
    rcases List.mem_map.mp hy with ⟨py, hpy, rfl⟩
    exact hinj px.1 (hknown px hpx) py.1 (hknown py hpy) hxy
  have hmp : (mappedPairs resp1).Perm (mappedPairs resp2) :=
    hperm.filterMap okPair
  have hnd2 : ((mappedPairs resp2).map Prod.fst).Nodup :=
    ((hmp.map Prod.fst).nodup_iff).mp hnd1
  rw [mapStatusResponse_eq resp1 hok hnd1,
    mapStatusResponse_eq resp2 hok2 hnd2,
    orderDict_perm (mappedPairs resp1) (mappedPairs resp2) hmp hnd1]

/-- C9 witness: two orderings of the same two-field response give the
same translated output. -/
theorem c9_witness :
    Lite.mapStatusResponse [("car", .num 2), ("err", .num 0)] =
      Lite.mapStatusResponse [("err", .num 0), ("car", .num 2)] :=
  c9_order_independence _ _
    (List.Perm.swap (("err", Val.num 0) : String × Val)
      (("car", Val.num 2) : String × Val) [])
    (by decide) (by decide) (by decide)
